import Mathlib

/-!
Verification model of the workflowy "microstuff" pipeline
(`updater/workflowy.py`): the tag lexer (`find_tags`), the numeric entry
parser (`parse_value_and_comment`), the temporal marker parser
(`parse_datetime` with `maybe_int`), the tree flattener (`flatten_tree`,
`add_children`, `convert_node`), the extractor (`extract_microstuff`)
and the per-metric storage replacement performed by `update`.

Modelling conventions:
* Python strings are Lean `String`s, processed as their `List Char` data.
* Absolute instants derived from  epoch + offset  are plain `Int` seconds:
  the code wraps them in `datetime.fromtimestamp(..., timezone.utc)`,
  which is injective in the offset where it succeeds and raises outside
  the representable year range; the model keeps the seconds value and
  the range check (`fromtimestampUtc`).
* The local date-times produced by the temporal marker parser are records
  of their six components; the fixed `Europe/Berlin` zone attached by the
  code is common to all of them and is left implicit.
* Numeric values are `Nat`: every numeric token of the source is a run of
  decimal digits, parsed by Python into an exact float and summed, and the
  modelled sums stay far below the range where float addition could round.
* Raising an exception is modelled by `Except.error ()`; `None` results
  that Python uses as a normal negative answer stay `Option`/`none`.
* Bounded loops over strings use an explicit fuel argument that is, at
  every call site, strictly larger than the number of loop iterations the
  Python code would perform (each iteration consumes at least one
  character), so the fuel branch is never the one taken.
-/

/-- Characters matched by the Python regex class for whitespace on `str`
patterns: ASCII spacing controls and the Unicode space code points. -/
def pySpaceChar (c : Char) : Bool :=
  c = ' ' || (9 ≤ c.toNat && c.toNat ≤ 13) || (28 ≤ c.toNat && c.toNat ≤ 31) ||
  c.toNat = 0x85 || c.toNat = 0xA0 || c.toNat = 0x1680 ||
  (0x2000 ≤ c.toNat && c.toNat ≤ 0x200A) || c.toNat = 0x2028 || c.toNat = 0x2029 ||
  c.toNat = 0x202F || c.toNat = 0x205F || c.toNat = 0x3000

/-- The punctuation set of WORKFLOWY_TAG_REGEX boundaries:
the character class listing ( ) , . ! ? ; : / [ ] . -/
def tagPunctChar (c : Char) : Bool :=
  c = '(' || c = ')' || c = ',' || c = '.' || c = '!' || c = '?' ||
  c = ';' || c = ':' || c = '/' || c = '[' || c = ']'

/-- A boundary character before or after a tag match: whitespace or the
punctuation set (the regex alternation between a space class and the
punctuation class). -/
def tagBoundaryChar (c : Char) : Bool :=
  pySpaceChar c || tagPunctChar c

/-- Word characters of the tag regex: the Unicode letter and decimal digit
classes.  Modelled by ASCII letters and digits plus the letter/digit
ranges of the major scripts (Latin supplements, Greek, Cyrillic, Hebrew,
Arabic, Devanagari, kana, CJK, Hangul, and the Arabic-Indic and Devanagari
digit blocks); the theorems below only evaluate the predicate inside these
ranges. -/
def tagWordChar (c : Char) : Bool :=
  c.isAlpha || c.isDigit ||
  (0xC0 ≤ c.toNat && c.toNat ≤ 0x24F && c.toNat ≠ 0xD7 && c.toNat ≠ 0xF7) ||
  (0x386 ≤ c.toNat && c.toNat ≤ 0x3FF && c.toNat ≠ 0x387) ||
  (0x400 ≤ c.toNat && c.toNat ≤ 0x4FF) ||
  (0x5D0 ≤ c.toNat && c.toNat ≤ 0x5EA) ||
  (0x621 ≤ c.toNat && c.toNat ≤ 0x64A) ||
  (0x660 ≤ c.toNat && c.toNat ≤ 0x669) ||
  (0x904 ≤ c.toNat && c.toNat ≤ 0x939) ||
  (0x966 ≤ c.toNat && c.toNat ≤ 0x96F) ||
  (0x3041 ≤ c.toNat && c.toNat ≤ 0x3096) ||
  (0x30A1 ≤ c.toNat && c.toNat ≤ 0x30FA) ||
  (0x4E00 ≤ c.toNat && c.toNat ≤ 0x9FFF) ||
  (0xAC00 ≤ c.toNat && c.toNat ≤ 0xD7A3)

/-- Characters allowed after the first character of a tag label segment:
word characters, hyphen, underscore and the apostrophe (code point 39). -/
def labelExtChar (c : Char) : Bool :=
  tagWordChar c || c = '-' || c = '_' || c.toNat = 39

/-- One label segment of the tag regex: a word character followed by a
greedy run of `labelExtChar`s.  Returns the consumed characters and the
remaining input; `none` when the input does not start with a word
character. -/
def matchLabel : List Char → Option (List Char × List Char)
  | [] => none
  | c :: rest =>
    if tagWordChar c then
      some (c :: rest.takeWhile labelExtChar, rest.dropWhile labelExtChar)
    else none

/-- The greedy run of colon-separated label segments of the tag regex.
Each returned segment includes its leading colon.  A colon not followed by
a word character stops the run and is left in the remainder. -/
def matchSegs : Nat → List Char → List (List Char) × List Char
  | 0, cs => ([], cs)
  | f + 1, ':' :: rest =>
    match matchLabel rest with
    | some (lab, rest1) =>
      let (segs, r) := matchSegs f rest1
      ((':' :: lab) :: segs, r)
    | none => ([], ':' :: rest)
  | _ + 1, cs => ([], cs)

/-- The trailing lookahead of the tag regex: end of input, whitespace or
the punctuation set. -/
def tagLookahead : List Char → Bool
  | [] => true
  | c :: _ => tagBoundaryChar c

/-- Match the tag body `[#@]label(:label)*(?=boundary)` at the head of the
input and return the captured label (the regex group after the marker)
together with the remaining input after the match.  When the greedy
segment run fails the lookahead, the regex engine drops the last segment;
the position then sits on a colon, which satisfies the lookahead. -/
def matchTagAt (cs : List Char) : Option (String × List Char) :=
  match cs with
  | [] => none
  | c :: rest =>
    if c = '#' || c = '@' then
      match matchLabel rest with
      | none => none
      | some (lab, r1) =>
        let (segs, r2) := matchSegs (r1.length + 1) r1
        if tagLookahead r2 then
          some (String.mk (lab ++ segs.flatten), r2)
        else
          match segs.reverse with
          | [] => none
          | last :: revInit =>
            some (String.mk (lab ++ revInit.reverse.flatten), last ++ r2)
    else none

/-- Scan for all non-overlapping matches of WORKFLOWY_TAG_REGEX, exactly
as `findall` does: at the start of the input the leading boundary may be
the zero-width start anchor, afterwards it must be a consumed boundary
character; scanning resumes after each match (the trailing lookahead is
not consumed). -/
def scanTags : Nat → List Char → Bool → List String
  | 0, _, _ => []
  | _ + 1, [], _ => []
  | f + 1, c :: rest, atStart =>
    if atStart then
      match matchTagAt (c :: rest) with
      | some (lab, r1) => lab :: scanTags f r1 false
      | none =>
        if tagBoundaryChar c then
          match matchTagAt rest with
          | some (lab, r1) => lab :: scanTags f r1 false
          | none => scanTags f rest false
        else scanTags f rest false
    else
      if tagBoundaryChar c then
        match matchTagAt rest with
        | some (lab, r1) => lab :: scanTags f r1 false
        | none => scanTags f rest false
      else scanTags f rest false

/-- All captured tag labels of a text, in match order. -/
def tagMatches (text : String) : List String :=
  scanTags (text.data.length + 1) text.data true

/-- Python `str.lower` on the ASCII range (the only case mapping the
developments below exercise; the non-ASCII characters they touch are
already lower case). -/
def lowerChar (c : Char) : Char :=
  if 'A' ≤ c && c ≤ 'Z' then Char.ofNat (c.toNat + 32) else c

/-- Lower-case a string character by character. -/
def strLower (s : String) : String :=
  String.mk (s.data.map lowerChar)

/-- WORKFLOWY_NOT_TAG_REGEX: the label consists of one to three ASCII
decimal digits and nothing else. -/
def shortDigitLabel (s : String) : Bool :=
  1 ≤ s.data.length && s.data.length ≤ 3 && s.data.all Char.isDigit

/-- Model of `find_tags`: all regex matches, minus the ones whose captured
label is a pure 1-3 digit run, lower-cased, with duplicates removed
(the code produces a Python set; the model keeps first occurrences). -/
def find_tags (text : String) : List String :=
  (((tagMatches text).filter (fun m => !(shortDigitLabel m))).map strLower).dedup

/-- Word characters of the Python word-boundary assertion: letters, digits
and the underscore (same letter/digit model as the tag lexer). -/
def reWordChar (c : Char) : Bool :=
  tagWordChar c || c = '_'

/-- A word boundary holds against the neighbouring character: there is no
neighbour, or the neighbour is not a word character. -/
def wordBoundaryOk : Option Char → Bool
  | none => true
  | some c => !(reWordChar c)

/-- Model of the findall over digit runs with word boundaries on both
sides: scan left to right remembering the previous character; a maximal
run of ASCII decimal digits is matched exactly when the characters
adjacent to it on both sides are missing or non-word.  (A shorter run
inside a maximal one is never matched: its inner neighbour is a digit.) -/
def findNumberRuns : Nat → Option Char → List Char → List (List Char)
  | 0, _, _ => []
  | _ + 1, _, [] => []
  | f + 1, prev, c :: rest =>
    if c.isDigit && wordBoundaryOk prev then
      let run := c :: rest.takeWhile Char.isDigit
      let rest1 := rest.dropWhile Char.isDigit
      let prev1 : Option Char := some (run.getLastD c)
      if wordBoundaryOk rest1.head? then run :: findNumberRuns f prev1 rest1
      else findNumberRuns f prev1 rest1
    else findNumberRuns f (some c) rest

/-- Numeric value of a run of decimal digit characters. -/
def digitRunVal (run : List Char) : Nat :=
  run.foldl (fun acc c => 10 * acc + (c.toNat - 48)) 0

/-- The digit runs of a text that the numeric entry parser sums. -/
def numberRuns (text : String) : List (List Char) :=
  findNumberRuns (text.data.length + 1) none text.data

/-- The trailing maximal run of non-digit characters of a text (the
regex search for a non-digit run anchored at the end); empty when the
text ends in a digit or is empty, which the code reports as no match. -/
def trailingNonDigits (cs : List Char) : List Char :=
  (cs.reverse.takeWhile (fun c => !c.isDigit)).reverse

/-- Python `str.strip` against a character set: drop members of the set
from both ends. -/
def stripSet (p : Char → Bool) (cs : List Char) : List Char :=
  ((cs.dropWhile p).reverse.dropWhile p).reverse

/-- The strip set of the comment computation: the space character and the
two parenthesis characters (the literal argument of the strip call). -/
def commentStripChar (c : Char) : Bool :=
  c = ' ' || c = '(' || c = ')'

/-- Model of `parse_value_and_comment`: `none` when the text holds no
digit run bounded by word boundaries; otherwise the sum of the runs
together with the trailing non-digit characters stripped of spaces and
parentheses (an empty result becoming `none`). -/
def parse_value_and_comment (item_text : String) : Option (Nat × Option String) :=
  let numbers := numberRuns item_text
  if numbers.isEmpty then none
  else
    let value := (numbers.map digitRunVal).sum
    let stripped := stripSet commentStripChar (trailingNonDigits item_text.data)
    let comment := if stripped.isEmpty then none else some (String.mk stripped)
    some (value, comment)

/-- View of an exception-or-value result as a sum, for deciding
equalities of concrete results. -/
def exceptToSum {ε α : Type} : Except ε α → ε ⊕ α
  | .error e => .inl e
  | .ok a => .inr a

instance {ε α : Type} [DecidableEq ε] [DecidableEq α] : DecidableEq (Except ε α) := fun a b =>
  decidable_of_iff (exceptToSum a = exceptToSum b)
    (by cases a <;> cases b <;> simp [exceptToSum])

/-- An element of the parsed markup fragment: lower-cased tag name,
attributes in document order with lower-cased names, and the child
elements (text content never matters to the temporal marker parser and is
not recorded). -/
inductive HElem : Type where
  | mk (tag : String) (attrs : List (String × String)) (children : List HElem)

/-- Tag name of an element. -/
def HElem.tag : HElem → String
  | .mk t _ _ => t

/-- Attribute list of an element. -/
def HElem.attrs : HElem → List (String × String)
  | .mk _ a _ => a

/-- Child elements of an element. -/
def HElem.children : HElem → List HElem
  | .mk _ _ c => c

/-- Attribute access: the first attribute with the given (lower-case)
name, as in the element `get` call. -/
def HElem.getAttr (e : HElem) (name : String) : Option String :=
  e.attrs.lookup name

/-- Whitespace as the markup tokenizer sees it. -/
def htmlWs (c : Char) : Bool :=
  c = ' ' || c.toNat = 9 || c.toNat = 10 || c.toNat = 12 || c.toNat = 13

/-- Characters of tag names. -/
def htmlNameChar (c : Char) : Bool :=
  c.isAlpha || c.isDigit

/-- Characters of attribute names. -/
def htmlAttrNameChar (c : Char) : Bool :=
  c.isAlpha || c.isDigit || c = '-' || c = '_' || c = ':'

/-- Skip a closing tag sitting at the head of the input, if any. -/
def skipCloseTag (cs : List Char) : List Char :=
  match cs with
  | '<' :: '/' :: rest => (rest.dropWhile (fun c => c ≠ '>')).drop 1
  | _ => cs

mutual

/-- Parse a run of sibling nodes of the markup fragment up to a closing
tag or the end of input.  Returns the child elements in order, whether any
non-whitespace text content was seen at this level, and the rest of the
input (positioned at the closing tag, when one stopped the run).  A
stray angle bracket that opens no well-formed element is treated as text,
mirroring the lenient HTML parser of the library. -/
def parseNodes : Nat → List Char → List HElem × Bool × List Char
  | 0, cs => ([], false, cs)
  | _ + 1, [] => ([], false, [])
  | f + 1, '<' :: rest =>
    match rest with
    | '/' :: _ => ([], false, '<' :: rest)
    | _ =>
      match parseElem f rest with
      | some (e, rest1) =>
        let (es, t1, r) := parseNodes f rest1
        (e :: es, t1, r)
      | none =>
        let (es, _t, r) := parseNodes f rest
        (es, true, r)
  | f + 1, c :: rest =>
    let (es, t, r) := parseNodes f rest
    (es, t || !htmlWs c, r)

/-- Parse one element whose opening angle bracket has just been consumed:
tag name, attributes, then either a self-closing slash or a child run
terminated by a closing tag (a missing closing tag is auto-closed at the
end of input, as the lenient parser does). -/
def parseElem : Nat → List Char → Option (HElem × List Char)
  | 0, _ => none
  | f + 1, cs =>
    let name := cs.takeWhile htmlNameChar
    let afterName := cs.dropWhile htmlNameChar
    if name.isEmpty then none
    else
      match parseAttrs f afterName with
      | none => none
      | some (attrs, rest1) =>
        match rest1 with
        | '/' :: '>' :: r2 => some (.mk (String.mk (name.map lowerChar)) attrs [], r2)
        | '>' :: r2 =>
          let (children, _, r3) := parseNodes f r2
          some (.mk (String.mk (name.map lowerChar)) attrs children, skipCloseTag r3)
        | _ => none

/-- Parse the attribute list of an opening tag, stopping before the
closing angle bracket or a self-closing slash.  Attribute names are
lower-cased; values may be double- or single-quoted or bare; an attribute
without a value gets the empty string. -/
def parseAttrs : Nat → List Char → Option (List (String × String) × List Char)
  | 0, _ => none
  | f + 1, cs =>
    let cs1 := cs.dropWhile htmlWs
    match cs1 with
    | [] => some ([], [])
    | '>' :: _ => some ([], cs1)
    | '/' :: '>' :: _ => some ([], cs1)
    | _ =>
      let an := cs1.takeWhile htmlAttrNameChar
      if an.isEmpty then none
      else
        let r1 := (cs1.dropWhile htmlAttrNameChar).dropWhile htmlWs
        match r1 with
        | '=' :: r2 =>
          let r3 := r2.dropWhile htmlWs
          match r3 with
          | '"' :: r4 =>
            let v := r4.takeWhile (fun c => c ≠ '"')
            let r5 := (r4.dropWhile (fun c => c ≠ '"')).drop 1
            match parseAttrs f r5 with
            | some (as1, rr) => some ((String.mk (an.map lowerChar), String.mk v) :: as1, rr)
            | none => none
          | q :: r4 =>
            if q.toNat = 39 then
              let v := r4.takeWhile (fun c => c.toNat ≠ 39)
              let r5 := (r4.dropWhile (fun c => c.toNat ≠ 39)).drop 1
              match parseAttrs f r5 with
              | some (as1, rr) => some ((String.mk (an.map lowerChar), String.mk v) :: as1, rr)
              | none => none
            else
              let v := (q :: r4).takeWhile (fun c => !htmlWs c && c ≠ '>')
              let r5 := (q :: r4).dropWhile (fun c => !htmlWs c && c ≠ '>')
              match parseAttrs f r5 with
              | some (as1, rr) => some ((String.mk (an.map lowerChar), String.mk v) :: as1, rr)
              | none => none
          | [] => some ([(String.mk (an.map lowerChar), "")], [])
        | _ =>
          match parseAttrs f r1 with
          | some (as1, rr) => some ((String.mk (an.map lowerChar), "") :: as1, rr)
          | none => none

end

/-- Model of parsing an item text as a markup fragment and taking its
root: a fragment consisting of exactly one element with no stray text
yields that element; a mix of elements and text is returned wrapped in a
synthetic container element holding the top-level elements as its
children.  A fragment with neither an element nor any non-whitespace
text produces an empty document, on which the library parser raises
(the "document is empty" parser error). -/
def fromstringModel (s : String) : Except Unit HElem :=
  let (es, sawText, _) := parseNodes (s.data.length + 2) s.data
  match es, sawText with
  | [], false => .error ()
  | [e], false => .ok e
  | _, _ => .ok (.mk "span" [] es)

/-- The element the temporal marker parser works on: the fragment root
itself when it is the time element, else the first time element among the
root's direct children (the element `find` call searches only direct
children). -/
def findTimeElem (root : HElem) : Option HElem :=
  if root.tag = "time" then some root
  else root.children.find? (fun c => c.tag = "time")

/-- The six-component local date-time the temporal marker parser builds
(every one of them carries the same fixed local timezone, left
implicit). -/
structure PyDatetime where
  year : Int
  month : Int
  day : Int
  hour : Int
  minute : Int
  second : Int
deriving DecidableEq, Repr

/-- Gregorian leap year rule used by the date constructor validation. -/
def isLeapYear (y : Int) : Bool :=
  y % 4 = 0 && (y % 100 ≠ 0 || y % 400 = 0)

/-- Length of a month for the date constructor validation. -/
def daysInMonth (y m : Int) : Int :=
  if m = 2 then (if isLeapYear y then 29 else 28)
  else if m = 4 || m = 6 || m = 9 || m = 11 then 30 else 31

/-- The datetime constructor: validates every component and raises on any
component out of range. -/
def mkDatetime (year month day hour minute second : Int) : Except Unit PyDatetime :=
  if 1 ≤ year && year ≤ 9999 && 1 ≤ month && month ≤ 12 &&
     1 ≤ day && day ≤ daysInMonth year month &&
     0 ≤ hour && hour ≤ 23 && 0 ≤ minute && minute ≤ 59 &&
     0 ≤ second && second ≤ 59
  then .ok ⟨year, month, day, hour, minute, second⟩
  else .error ()

/-- Python `int` on a string: surrounding whitespace stripped, an optional
sign, then a non-empty run of decimal digits; anything else raises. -/
def pyInt (s : String) : Except Unit Int :=
  let cs := stripSet pySpaceChar s.data
  let (neg, ds) :=
    match cs with
    | '-' :: rest => (true, rest)
    | '+' :: rest => (false, rest)
    | _ => (false, cs)
  if !ds.isEmpty && ds.all Char.isDigit then
    .ok (if neg then -(digitRunVal ds : Int) else (digitRunVal ds : Int))
  else .error ()

/-- Python `int` applied to the raw result of an attribute lookup: a
missing attribute is a `None` argument and raises immediately. -/
def pyIntOfAttr : Option String → Except Unit Int
  | none => .error ()
  | some s => pyInt s

/-- Model of `maybe_int`: a missing or empty attribute value is falsy and
yields `None`; any other value goes through `int`, whose failure
propagates as an exception. -/
def maybe_int : Option String → Except Unit (Option Int)
  | none => .ok none
  | some s => if s = "" then .ok none else (pyInt s).map some

/-- Python `x or 0` on the result of `maybe_int`: `None` and `0` are both
falsy and give `0`; any other integer passes through. -/
def orZero (o : Option Int) : Int :=
  o.getD 0

/-- Build the date-time from a found time element: the three required
attributes go straight through `int` (raising when missing or
unparsable), the three optional ones through `maybe_int` with a default
of 0, and the datetime constructor validates the result. -/
def datetimeFromElem (e : HElem) : Except Unit PyDatetime := do
  let y ← pyIntOfAttr (e.getAttr "startyear")
  let mo ← pyIntOfAttr (e.getAttr "startmonth")
  let d ← pyIntOfAttr (e.getAttr "startday")
  let h ← maybe_int (e.getAttr "starthour")
  let mi ← maybe_int (e.getAttr "startminute")
  let s ← maybe_int (e.getAttr "startsecond")
  mkDatetime y mo d (orZero h) (orZero mi) (orZero s)

/-- Model of `parse_datetime`: empty text is a normal negative answer;
any other text is parsed as markup (a whitespace-only text reaches the
parser unguarded and its parser error propagates), the time element is
looked for at the root or among the root's direct children, absence of
it is a normal negative answer, and a found element is converted
(conversion errors propagate as exceptions). -/
def parse_datetime (item_text : String) : Except Unit (Option PyDatetime) :=
  if item_text = "" then .ok none
  else
    match fromstringModel item_text with
    | .error e => .error e
    | .ok root =>
      match findTimeElem root with
      | none => .ok none
      | some e => (datetimeFromElem e).map some

/-- A raw tree node of the fetched snapshot: identifier, display text,
optional notes, creation and last-modified offsets, optional completion
offset, and the child nodes (an absent child list and an empty one are
indistinguishable to the code and both become the empty list). -/
inductive Node : Type where
  | mk (id : String) (nm : String) (no : Option String) (ct : Int) (lm : Int)
       (cp : Option Int) (ch : List Node)

/-- Identifier of a raw node. -/
def Node.id : Node → String
  | .mk i _ _ _ _ _ _ => i

/-- Display text of a raw node. -/
def Node.nm : Node → String
  | .mk _ n _ _ _ _ _ => n

/-- Notes of a raw node. -/
def Node.no : Node → Option String
  | .mk _ _ n _ _ _ _ => n

/-- Creation offset of a raw node. -/
def Node.ct : Node → Int
  | .mk _ _ _ c _ _ _ => c

/-- Last-modified offset of a raw node. -/
def Node.lm : Node → Int
  | .mk _ _ _ _ l _ _ => l

/-- Completion offset of a raw node, when it has one of its own. -/
def Node.cp : Node → Option Int
  | .mk _ _ _ _ _ c _ => c

/-- Children of a raw node. -/
def Node.ch : Node → List Node
  | .mk _ _ _ _ _ _ c => c

mutual

/-- A converted item: identifier, text, notes, tags from its own text,
the identifier chain of its ancestors (root first — the code keeps object
references; identifiers stand in for them in the acyclic model), the
owned child items, and the three resolved absolute instants in seconds.
The child sequence is a mutually defined list so that every traversal
below is structurally recursive and computes inside the kernel. -/
inductive WorkflowyItem : Type where
  | mk (ref_id : String) (text : String) (notes : String) (tags : List String)
       (parents : List String) (children : WItemList)
       (created_at : Int) (modified_at : Int) (completed_at : Option Int)

inductive WItemList : Type where
  | nil
  | cons (it : WorkflowyItem) (rest : WItemList)

end

/-- View a mutually defined child sequence as an ordinary list. -/
def WItemList.toList : WItemList → List WorkflowyItem
  | .nil => []
  | .cons it rest => it :: rest.toList

/-- Pack an ordinary list of items as a child sequence. -/
def WItemList.ofList : List WorkflowyItem → WItemList
  | [] => .nil
  | it :: rest => .cons it (WItemList.ofList rest)

/-- Packing and viewing child sequences are mutually inverse. -/
theorem WItemList.toList_ofList (l : List WorkflowyItem) :
    (WItemList.ofList l).toList = l := by
  induction l with
  | nil => rfl
  | cons it rest ih => simp [WItemList.ofList, WItemList.toList, ih]

/-- Identifier of an item. -/
def WorkflowyItem.ref_id : WorkflowyItem → String
  | .mk i _ _ _ _ _ _ _ _ => i

/-- Text of an item. -/
def WorkflowyItem.text : WorkflowyItem → String
  | .mk _ t _ _ _ _ _ _ _ => t

/-- Notes of an item. -/
def WorkflowyItem.notes : WorkflowyItem → String
  | .mk _ _ n _ _ _ _ _ _ => n

/-- Tag set of an item (its own text only). -/
def WorkflowyItem.tags : WorkflowyItem → List String
  | .mk _ _ _ t _ _ _ _ _ => t

/-- Ancestor identifier chain of an item, root first. -/
def WorkflowyItem.parents : WorkflowyItem → List String
  | .mk _ _ _ _ p _ _ _ _ => p

/-- Owned children of an item, as the packed sequence. -/
def WorkflowyItem.childSeq : WorkflowyItem → WItemList
  | .mk _ _ _ _ _ c _ _ _ => c

/-- Owned children of an item, as an ordinary list. -/
def WorkflowyItem.children (it : WorkflowyItem) : List WorkflowyItem :=
  it.childSeq.toList

mutual

/-- Number of constructors in an item tree: one plus the sizes of the
children.  A strict upper bound on the number of descendants, used as
loop fuel by the extractor model. -/
def wSize : WorkflowyItem → Nat
  | .mk _ _ _ _ _ ch _ _ _ => 1 + wSizeL ch

/-- Total size of a packed item sequence. -/
def wSizeL : WItemList → Nat
  | .nil => 0
  | .cons it rest => wSize it + wSizeL rest

end

/-- Absolute creation instant of an item (seconds). -/
def WorkflowyItem.created_at : WorkflowyItem → Int
  | .mk _ _ _ _ _ _ c _ _ => c

/-- Absolute modification instant of an item (seconds). -/
def WorkflowyItem.modified_at : WorkflowyItem → Int
  | .mk _ _ _ _ _ _ _ m _ => m

/-- Resolved absolute completion instant of an item (seconds), absent
when neither the item nor any ancestor is completed. -/
def WorkflowyItem.completed_at : WorkflowyItem → Option Int
  | .mk _ _ _ _ _ _ _ _ c => c

/-- A node is bigger than its own child list, for termination of the
traversals below. -/
theorem Node.sizeOf_ch_lt (n : Node) : sizeOf n.ch < sizeOf n := by
  cases n
  simp [Node.ch]

/-- Timestamps accepted by the aware `fromtimestamp` conversion: the
seconds values whose UTC instant falls inside the representable year
range 1..9999 (the conversion is pure arithmetic when a timezone is
supplied, and raises outside this range). -/
def tsOk (ts : Int) : Bool :=
  -62135596800 ≤ ts && ts ≤ 253402300799

/-- Model of `datetime.fromtimestamp(ts, timezone.utc)`: the instant is
kept as its seconds value (the conversion is injective), and an
out-of-range argument raises. -/
def fromtimestampUtc (ts : Int) : Except Unit Int :=
  if tsOk ts then .ok ts else .error ()

/-- The completion instant `convert_node` resolves for a node: the node's
own offset shifted by the epoch and converted when present (the
conversion can raise), else the already-resolved instant of the
parent. -/
def resolveCompleted (n : Node) (parentCompleted : Option Int) (time_joined_s : Int) :
    Except Unit (Option Int) :=
  match n.cp with
  | some cp => (fromtimestampUtc (time_joined_s + cp)).map some
  | none => .ok parentCompleted

/-- The completion value `resolveCompleted` produces when its conversion
does not raise: the node's own epoch-shifted offset when present, else
the inherited value. -/
def resolveRaw (n : Node) (parentCompleted : Option Int) (time_joined_s : Int) :
    Option Int :=
  match n.cp with
  | some cp => some (time_joined_s + cp)
  | none => parentCompleted

/-- Model of `convert_node`: the converted item of one raw node.  The
three timestamp conversions can each raise, in the order the code
performs them (created, modified, completed).  The children are supplied
by the caller, which in the code assigns them after this conversion
returns (the object is mutated in place; the model passes the finished
list). -/
def convert_node (n : Node) (parentCompleted : Option Int) (parentIds : List String)
    (time_joined_s : Int) (children : List WorkflowyItem) :
    Except Unit WorkflowyItem := do
  let created ← fromtimestampUtc (time_joined_s + n.ct)
  let modified ← fromtimestampUtc (time_joined_s + n.lm)
  let completed ← resolveCompleted n parentCompleted time_joined_s
  .ok (.mk n.id n.nm (n.no.getD "") (find_tags n.nm) parentIds
        (WItemList.ofList children) created modified completed)

/-- Replace an item's owned children, modelling the assignment the code
performs on the already-recorded item object after its children are
converted. -/
def WorkflowyItem.withChildren : WorkflowyItem → List WorkflowyItem → WorkflowyItem
  | .mk i t no tg p _ ca ma cpa, ch => .mk i t no tg p (WItemList.ofList ch) ca ma cpa

/-- Model of `add_children`: convert each raw node of a sibling run (its
timestamp conversions can raise), check its identifier against the set of
already-inserted keys (the assert), and record the finished items in
insertion order — each node before its descendants, exactly the insertion
order of the code's mapping.  Returns the converted sibling items, the
recorded (id, item) entries of this run, and the updated key set.  A
duplicate identifier or a failing conversion aborts the whole run with an
error; conversion precedes the duplicate check, as in the code. -/
def add_children (nodes : List Node) (seen : List String) (parentCompleted : Option Int)
    (parentIds : List String) (time_joined_s : Int) :
    Except Unit (List WorkflowyItem × List (String × WorkflowyItem) × List String) :=
  match nodes with
  | [] => .ok ([], [], seen)
  | n :: rest =>
    match convert_node n parentCompleted parentIds time_joined_s [] with
    | .error e => .error e
    | .ok item0 =>
      if n.id ∈ seen then .error ()
      else
        match add_children n.ch (seen ++ [n.id]) item0.completed_at
            (parentIds ++ [n.id]) time_joined_s with
        | .error e => .error e
        | .ok (childItems, childEntries, seen1) =>
          let item := item0.withChildren childItems
          match add_children rest seen1 parentCompleted parentIds time_joined_s with
          | .error e => .error e
          | .ok (siblingItems, siblingEntries, seen2) =>
            .ok (item :: siblingItems, (n.id, item) :: (childEntries ++ siblingEntries), seen2)
termination_by sizeOf nodes
decreasing_by
all_goals simp
all_goals (have h := Node.sizeOf_ch_lt n; omega)

/-- All timestamp conversions of one node succeed: creation and
modification offsets always convert, the completion offset only when
present. -/
def timesOk (time_joined_s : Int) (n : Node) : Bool :=
  tsOk (time_joined_s + n.ct) && tsOk (time_joined_s + n.lm) &&
    (match n.cp with
     | some cp => tsOk (time_joined_s + cp)
     | none => true)

/-- All timestamp conversions of every node of a raw forest succeed. -/
def allTimesOk (time_joined_s : Int) : List Node → Bool
  | [] => true
  | n :: rest =>
    timesOk time_joined_s n && allTimesOk time_joined_s n.ch &&
      allTimesOk time_joined_s rest
termination_by ns => sizeOf ns
decreasing_by
all_goals simp
all_goals (have h := Node.sizeOf_ch_lt n; omega)

/-- A node whose timestamps all convert is converted to exactly the item
the code builds: identifier, text, defaulted notes, its own tags, the
ancestor chain, the supplied children, the epoch-shifted instants, and
the resolved completion value. -/
theorem convert_node_of_timesOk (n : Node) (pc : Option Int) (pids : List String)
    (tjs : Int) (ch : List WorkflowyItem) (h : timesOk tjs n = true) :
    convert_node n pc pids tjs ch =
      .ok (.mk n.id n.nm (n.no.getD "") (find_tags n.nm) pids (WItemList.ofList ch)
        (tjs + n.ct) (tjs + n.lm) (resolveRaw n pc tjs)) := by
  cases hcp : n.cp with
  | none =>
    simp [timesOk, hcp] at h
    simp [convert_node, fromtimestampUtc, resolveCompleted, resolveRaw, hcp, h.1, h.2]
    rfl
  | some cp =>
    simp [timesOk, hcp] at h
    simp [convert_node, fromtimestampUtc, resolveCompleted, resolveRaw, hcp,
      h.1.1, h.1.2, h.2]
    rfl

/-- A node with any failing timestamp conversion makes `convert_node`
raise. -/
theorem convert_node_of_not_timesOk (n : Node) (pc : Option Int) (pids : List String)
    (tjs : Int) (ch : List WorkflowyItem) (h : timesOk tjs n = false) :
    convert_node n pc pids tjs ch = .error () := by
  cases hcp : n.cp with
  | none =>
    simp [timesOk, hcp] at h
    by_cases h1 : tsOk (tjs + n.ct)
    · simp [convert_node, fromtimestampUtc, resolveCompleted, hcp, h1, h h1]
      rfl
    · simp [convert_node, fromtimestampUtc, h1]
      rfl
  | some cp =>
    simp [timesOk, hcp] at h
    by_cases h1 : tsOk (tjs + n.ct)
    · by_cases h2 : tsOk (tjs + n.lm)
      · simp [convert_node, fromtimestampUtc, resolveCompleted, hcp, h1, h2, h h1 h2]
        rfl
      · simp [convert_node, fromtimestampUtc, h1, h2]
        rfl
    · simp [convert_node, fromtimestampUtc, h1]
      rfl

/-- The snapshot handed to the flattener: the document epoch and the root
children of the raw tree (the only parts of the payload the flattener
reads). -/
structure WorkflowyData where
  dateJoinedTimestampInSeconds : Int
  rootProjectChildren : List Node

/-- Model of `flatten_tree`: the id-to-item mapping of the whole snapshot
as an association list in insertion order, or an error when a duplicate
identifier aborts the flatten with no mapping exposed. -/
def flatten_tree (data : WorkflowyData) : Except Unit (List (String × WorkflowyItem)) :=
  match add_children data.rootProjectChildren [] none [] data.dateJoinedTimestampInSeconds with
  | .error e => .error e
  | .ok (_, entries, _) => .ok entries

/-- The identifiers of a raw forest in depth-first pre-order — the order
in which the flattener inserts them, one per node. -/
def preorderIds : List Node → List String
  | [] => []
  | n :: rest => n.id :: (preorderIds n.ch ++ preorderIds rest)
termination_by ns => sizeOf ns
decreasing_by
all_goals simp
all_goals (have h := Node.sizeOf_ch_lt n; omega)

/-- Index a raw forest by a path of child positions: the node reached by
taking position `i` among the current siblings and recursing. -/
def getNode : List Node → List Nat → Option Node
  | _, [] => none
  | ns, i :: rest =>
    match ns[i]? with
    | none => none
    | some n => if rest.isEmpty then some n else getNode n.ch rest

/-- The chain of raw nodes along a path, root first, ending at the
addressed node. -/
def pathChain : List Node → List Nat → Option (List Node)
  | _, [] => some []
  | ns, i :: rest =>
    match ns[i]? with
    | none => none
    | some n =>
      if rest.isEmpty then some [n]
      else (pathChain n.ch rest).map (fun c => n :: c)

/-- Index a converted forest by a path of child positions, mirroring
`getNode`. -/
def getItem : List WorkflowyItem → List Nat → Option WorkflowyItem
  | _, [] => none
  | its, i :: rest =>
    match its[i]? with
    | none => none
    | some it => if rest.isEmpty then some it else getItem it.children rest

/-- One derived observation: the date anchor's instant, the numeric
value, and the optional trailing comment. -/
structure Microstuff where
  time : PyDatetime
  value : Nat
  comment : Option String
deriving DecidableEq, Repr

/-- The inner stack loop of `extract_microstuff`, below one date anchor:
pop an item (the stacks are lists whose head is the top; the code pushes
by appending and pops from the tail, so pushing a child list reverses
it), push all of its children unconditionally, and emit one observation
when its text yields a value.  The fuel is strictly larger than the
number of pops at every call site. -/
def date_descend : Nat → List WorkflowyItem → PyDatetime → List Microstuff
  | 0, _, _ => []
  | _ + 1, [], _ => []
  | f + 1, item :: stack, d =>
    let stack1 := item.children.reverse ++ stack
    match parse_value_and_comment item.text with
    | none => date_descend f stack1 d
    | some (v, c) => ⟨d, v, c⟩ :: date_descend f stack1 d

/-- The outer stack loop of `extract_microstuff`: pop an item and run the
temporal marker parser on its text (an exception propagates).  Without an
instant, push the item's children and keep searching; with one, the item
is a date anchor: run the inner loop over its subtree and do not push its
children onto the outer stack. -/
def extract_outer : Nat → List WorkflowyItem → Except Unit (List Microstuff)
  | 0, _ => .ok []
  | _ + 1, [] => .ok []
  | f + 1, item :: stack =>
    match parse_datetime item.text with
    | .error e => .error e
    | .ok none => extract_outer f (item.children.reverse ++ stack)
    | .ok (some d) =>
      match extract_outer f stack with
      | .error e => .error e
      | .ok ms => .ok (date_descend (wSize item) item.children.reverse d ++ ms)

/-- Model of `extract_microstuff`: the outer loop started on the root's
direct children, with ample fuel (the loops pop each descendant at most
once, and `wSize` strictly bounds the number of descendants). -/
def extract_microstuff (root_item : WorkflowyItem) : Except Unit (List Microstuff) :=
  extract_outer (wSize root_item) root_item.children.reverse

/-- One stored row of the metric table: time, metric name, value,
optional comment. -/
structure MRow where
  time : PyDatetime
  name : String
  value : Nat
  comment : Option String
deriving DecidableEq, Repr

/-- The rows `update` builds for one metric from its extracted
observations. -/
def rowsOf (metric_name : String) (ms : List Microstuff) : List MRow :=
  ms.map (fun m => ⟨m.time, metric_name, m.value, m.comment⟩)

/-- The delete statement of the sync policy: remove every stored row
whose name equals the metric name. -/
def sqlDeleteName (tbl : List MRow) (metric_name : String) : List MRow :=
  tbl.filter (fun r => !(r.name == metric_name))

/-- The per-metric replacement transaction of `update`, acting on the
stored table state: delete all rows of the metric name, then insert the
freshly built rows. -/
def update_metric (tbl : List MRow) (metric_name : String) (ms : List Microstuff) :
    List MRow :=
  sqlDeleteName tbl metric_name ++ rowsOf metric_name ms

/-- Items of the end-to-end scenario: a value item with text consisting of
a bare number. -/
def exItem5 : WorkflowyItem :=
  .mk "id-5" "5" "" [] ["id-root", "id-date"] .nil 100 100 none

/-- Items of the end-to-end scenario: a value item with a number and a
parenthesised comment. -/
def exItemGym : WorkflowyItem :=
  .mk "id-gym" "3 (gym)" "" [] ["id-root", "id-date"] .nil 100 100 none

/-- The text of the date anchor of the end-to-end scenario, parsing as
Jan 1 2023. -/
def exDateText : String :=
  "<time startYear=\"2023\" startMonth=\"1\" startDay=\"1\">Sun, Jan 1, 2023</time>"

/-- The date anchor of the end-to-end scenario, whose children are the
two value items, stored in the order value-5 then value-3. -/
def exDateItem : WorkflowyItem :=
  .mk "id-date" exDateText "" [] ["id-root"]
    (.cons exItem5 (.cons exItemGym .nil)) 100 100 none

/-- The root of the end-to-end scenario, carrying the governing tag and
owning exactly the date anchor. -/
def exRoot : WorkflowyItem :=
  .mk "id-root" "pushups #microstuff" "" ["microstuff"] []
    (.cons exDateItem .nil) 100 100 none

/-- Local midnight of Jan 1 2023, the anchor instant of the scenario. -/
def jan1 : PyDatetime := ⟨2023, 1, 1, 0, 0, 0⟩

/-- C1 (counterexample): in the end-to-end scenario — the root carries the
governing tag, its only child's text parses as Jan 1 2023, and that
child's children are the texts "5" and "3 (gym)" in this stored order —
the extraction does NOT emit the observation list [(5, absent),
(3, "gym")] claimed by the specification: the LIFO pop visits the
last-stored child first, so (3, "gym") is emitted before (5, absent). -/
theorem claim1_counterexample :
    "microstuff" ∈ exRoot.tags ∧
    exRoot.children.map WorkflowyItem.text = [exDateText] ∧
    parse_datetime exDateText = .ok (some jan1) ∧
    exDateItem.children.map WorkflowyItem.text = ["5", "3 (gym)"] ∧
    extract_microstuff exRoot ≠ .ok [⟨jan1, 5, none⟩, ⟨jan1, 3, some "gym"⟩] := by
  decide

/-- C1 (amended): in the end-to-end scenario the extraction yields exactly
two observations, both anchored at Jan 1 2023 local midnight, with value
and comment pairs (3, "gym") and (5, absent), emitted in that order — the
LIFO-derived traversal pops the last-stored child first. -/
theorem claim1_amended :
    "microstuff" ∈ exRoot.tags ∧
    exRoot.children.map WorkflowyItem.text = [exDateText] ∧
    parse_datetime exDateText = .ok (some jan1) ∧
    exDateItem.children.map WorkflowyItem.text = ["5", "3 (gym)"] ∧
    extract_microstuff exRoot = .ok [⟨jan1, 3, some "gym"⟩, ⟨jan1, 5, none⟩] := by
  decide

/-- C9: a time-annotation element that lacks the required startyear
attribute makes the temporal marker parser raise (the missing attribute
reaches the integer conversion as a `None`), instead of reporting
absence: the fragment parses, the element is found, its startyear lookup
is empty, and the parse is an error rather than a negative result. -/
theorem claim9_missing_required_attribute_raises :
    ((fromstringModel "<time startmonth=\"1\" startday=\"5\">x</time>").map
        (fun root => (findTimeElem root).map (fun e => e.getAttr "startyear"))) =
      .ok (some none) ∧
    parse_datetime "<time startmonth=\"1\" startday=\"5\">x</time>" = .error () := by
  constructor
  · rfl
  · decide

/-- C10: the numeric entry parser does not treat a decimal-point number as
one value: on the text "3.5" it finds the two digit runs "3" and "5"
(each bounded by word boundaries, the dot being a non-word character),
sums them to 8, and reports no comment because the text ends in a
digit. -/
theorem claim10_decimal_point_splits :
    numberRuns "3.5" = [['3'], ['5']] ∧
    parse_value_and_comment "3.5" = some (8, none) := by
  decide

/-- C4: the tag lexer on the three specification examples (the Python set
of tags is modelled as a duplicate-free list), on a non-ASCII text, and
the guarantee that every returned tag is the lower-casing of some matched
label that is not a pure 1-3 digit run, so the discarded candidates never
contribute a tag. -/
theorem claim4_find_tags :
    find_tags "Paid #rent this month" = ["rent"] ∧
    find_tags "#12 items bought" = [] ∧
    find_tags "#a:b-c done" = ["a:b-c"] ∧
    find_tags "läuft #übung heute" = ["übung"] ∧
    (∀ text tag, tag ∈ find_tags text →
      ∃ m, m ∈ tagMatches text ∧ shortDigitLabel m = false ∧ tag = strLower m) := by
  refine ⟨by decide, by decide, by decide, by decide, ?_⟩
  intro text tag h
  simp only [find_tags, List.mem_dedup, List.mem_map, List.mem_filter] at h
  obtain ⟨m, ⟨hm, hsd⟩, rfl⟩ := h
  exact ⟨m, hm, by simpa using hsd, rfl⟩

/-- Witness for C4 at a concrete input: the returned tag "rent" comes
from a matched, non-discarded label. -/
theorem claim4_witness :
    ∃ m, m ∈ tagMatches "Paid #rent this month" ∧ shortDigitLabel m = false ∧
      "rent" = strLower m :=
  claim4_find_tags.2.2.2.2 "Paid #rent this month" "rent" (by decide)

/-- The strip set described by the claim sentence for the comment:
surrounding whitespace and parenthesis characters.  (The code's strip set
holds only the space character and the parentheses; this definition
follows the claim wording, for comparison.) -/
def claimStripChar (c : Char) : Bool :=
  pySpaceChar c || c = '(' || c = ')'

/-- C5 (counterexample): on the text "1" followed by a tab the code keeps
the tab in the comment — its strip set holds only the space character and
the parentheses — while the claimed rule (strip surrounding whitespace
and parentheses, an empty result meaning no comment) predicts an absent
comment. -/
theorem claim5_counterexample :
    parse_value_and_comment "1\t" = some (1, some "\t") ∧
    stripSet claimStripChar (trailingNonDigits ("1\t").data) = [] := by
  decide

/-- C5 (amended): the numeric entry parser reports absence exactly when
the text holds no maximal digit run bounded by word boundaries; otherwise
it returns the sum of all runs together with the trailing non-digit
characters stripped of surrounding space and parenthesis characters (an
empty remainder meaning no comment); including the two specification
examples. -/
theorem claim5_amended :
    (∀ text, parse_value_and_comment text = none ↔ numberRuns text = []) ∧
    (∀ text v c, parse_value_and_comment text = some (v, c) →
       v = ((numberRuns text).map digitRunVal).sum ∧
       c = (if stripSet commentStripChar (trailingNonDigits text.data) = [] then none
            else some (String.mk (stripSet commentStripChar (trailingNonDigits text.data))))) ∧
    parse_value_and_comment "12 + 8 (approx, rounded)" = some (20, some "approx, rounded") ∧
    parse_value_and_comment "no numbers here" = none := by
  refine ⟨?_, ?_, by decide, by decide⟩
  · intro text
    by_cases h : (numberRuns text).isEmpty
    · simp [parse_value_and_comment, h, List.isEmpty_iff.mp h]
    · simp [parse_value_and_comment, h]
      intro hc
      exact absurd (List.isEmpty_iff.mpr hc) h
  · intro text v c h
    by_cases he : (numberRuns text).isEmpty
    · simp [parse_value_and_comment, he] at h
    · simp [parse_value_and_comment, he] at h
      exact ⟨h.1.symm, h.2.symm⟩

/-- Witness for C5 at a concrete input: the parsed value of "3 (gym)" is
the sum of its digit runs and the comment is the stripped trailing
remainder. -/
theorem claim5_witness :
    (3 : Nat) = ((numberRuns "3 (gym)").map digitRunVal).sum ∧
    some "gym" = (if stripSet commentStripChar (trailingNonDigits ("3 (gym)").data) = []
        then none
        else some (String.mk (stripSet commentStripChar (trailingNonDigits ("3 (gym)").data)))) :=
  claim5_amended.2.1 "3 (gym)" 3 (some "gym") (by decide)

/-- C7 (counterexample): a time-annotation element whose starthour value
is the unparsable string "x" makes the temporal marker parser raise
instead of defaulting the hour to 0: the element is found, its starthour
attribute is "x", and the parse is an error rather than the claimed local
midnight instant. -/
theorem claim7_counterexample :
    ((fromstringModel
        "<time startyear=\"2023\" startmonth=\"1\" startday=\"28\" starthour=\"x\">d</time>").map
        (fun root => (findTimeElem root).map (fun e => e.getAttr "starthour"))) =
      .ok (some (some "x")) ∧
    parse_datetime
        "<time startyear=\"2023\" startmonth=\"1\" startday=\"28\" starthour=\"x\">d</time>" =
      .error () := by
  constructor
  · rfl
  · decide

/-- C7 (amended): whenever the three required attributes convert, each
optional hour, minute and second attribute that is absent or empty
contributes 0 to the constructed instant (a present non-empty but
unparsable value instead raises); in particular the element with only
startyear 2023, startmonth 1 and startday 28 yields local midnight of
Jan 28 2023. -/
theorem claim7_amended :
    (∀ (e : HElem) (y mo d : Int),
       pyIntOfAttr (e.getAttr "startyear") = .ok y →
       pyIntOfAttr (e.getAttr "startmonth") = .ok mo →
       pyIntOfAttr (e.getAttr "startday") = .ok d →
       (e.getAttr "starthour" = none ∨ e.getAttr "starthour" = some "") →
       (e.getAttr "startminute" = none ∨ e.getAttr "startminute" = some "") →
       (e.getAttr "startsecond" = none ∨ e.getAttr "startsecond" = some "") →
       datetimeFromElem e = mkDatetime y mo d 0 0 0) ∧
    parse_datetime "<time startyear=\"2023\" startmonth=\"1\" startday=\"28\">Sat, Jan 28, 2023</time>" =
      .ok (some ⟨2023, 1, 28, 0, 0, 0⟩) := by
  refine ⟨?_, by decide⟩
  intro e y mo d hy hmo hd hh hmi hs
  rcases hh with hh | hh <;> rcases hmi with hmi | hmi <;> rcases hs with hs | hs <;>
    simp [datetimeFromElem, hy, hmo, hd, hh, hmi, hs, maybe_int, orZero] <;> rfl

/-- A concrete time element with only the three required attributes, for
the C7 witness. -/
def exTimeElem : HElem :=
  .mk "time" [("startyear", "2023"), ("startmonth", "1"), ("startday", "28")] []

/-- Witness for C7 at a concrete element: all three optional attributes
absent give the zero time components. -/
theorem claim7_witness :
    datetimeFromElem exTimeElem = mkDatetime 2023 1 28 0 0 0 :=
  claim7_amended.1 exTimeElem 2023 1 28 (by decide) (by decide) (by decide)
    (Or.inl (by rfl)) (Or.inl (by rfl)) (Or.inl (by rfl))

/-- Presence of a time element anywhere in an element tree, up to a depth
bound (ample at every use). -/
def hasTimeElem : Nat → HElem → Bool
  | 0, _ => false
  | f + 1, e => e.tag == "time" || e.children.any (fun c => hasTimeElem f c)

/-- The nested counterexample text for C8: the time element sits two
levels below the fragment root. -/
def exNestedText : String :=
  "<div><p><time startyear=\"2023\" startmonth=\"1\" startday=\"28\">x</time></p></div>"

/-- C8 (counterexample): a well-formed time-annotation element among the
root's deeper descendants (below the direct children) is not found — the
element lookup searches only direct children — so the parse reports
absence even though the claimed rule (search among all descendants)
predicts an instant. -/
theorem claim8_counterexample :
    (fromstringModel exNestedText).map (hasTimeElem 4) = .ok true ∧
    parse_datetime exNestedText = .ok none := by
  constructor
  · rfl
  · decide

/-- C8 (amended): the temporal marker parser returns an instant exactly
when the text is non-empty, parses to a fragment root (a text with
neither an element nor non-whitespace content instead raises a parser
error, only the empty text being guarded), the root is the time element
or one is found among the root's direct children, and its attributes
convert to a valid instant.  When the text is empty, or the fragment has
a root but no such element, absence is reported as a normal negative
result; a failing fragment parse propagates as an error, as on the
whitespace-only text. -/
theorem claim8_amended : ∀ s : String,
    ((∃ d, parse_datetime s = .ok (some d)) ↔
      (s ≠ "" ∧ ∃ root e d, fromstringModel s = .ok root ∧ findTimeElem root = some e ∧
        datetimeFromElem e = .ok d)) ∧
    (s = "" → parse_datetime s = .ok none) ∧
    (∀ root, s ≠ "" → fromstringModel s = .ok root → findTimeElem root = none →
      parse_datetime s = .ok none) ∧
    (s ≠ "" → fromstringModel s = .error () → parse_datetime s = .error ()) ∧
    parse_datetime " " = .error () := by
  intro s
  refine ⟨?_, ?_, ?_, ?_, by decide⟩
  · by_cases hs : s = ""
    · simp [parse_datetime, hs]
    · cases hparse : fromstringModel s with
      | error u => cases u; simp [parse_datetime, hs, hparse]
      | ok root =>
        cases hfind : findTimeElem root with
        | none => simp [parse_datetime, hs, hparse, hfind]
        | some e =>
          cases hdt : datetimeFromElem e with
          | error u => simp [parse_datetime, hs, hparse, hfind, hdt, Except.map]
          | ok d => simp [parse_datetime, hs, hparse, hfind, hdt, Except.map]
  · intro hs
    simp [parse_datetime, hs]
  · intro root hs hparse hfind
    simp [parse_datetime, hs, hparse, hfind]
  · intro hs hparse
    simp [parse_datetime, hs, hparse]

/-- Witness for C8 at a concrete input: a text with words but no markup
element parses to a fragment root without a time element and is a normal
negative result. -/
theorem claim8_witness : parse_datetime "plain text, no marker" = .ok none :=
  (claim8_amended "plain text, no marker").2.2.1 (.mk "span" [] [])
    (by decide) (by rfl) (by rfl)

/-- C3: replacing one metric's stored rows is exact and isolated: after
the delete-and-insert for a metric name, the rows carrying that name are
exactly the rows built from the new observations and nothing else, and
every row carrying a different name is exactly as before the
replacement. -/
theorem claim3_replacement :
    ∀ (tbl : List MRow) (metric_name : String) (ms : List Microstuff),
      (update_metric tbl metric_name ms).filter (fun r => r.name == metric_name) =
        rowsOf metric_name ms ∧
      (update_metric tbl metric_name ms).filter (fun r => !(r.name == metric_name)) =
        tbl.filter (fun r => !(r.name == metric_name)) := by
  intro tbl n ms
  have hrows : ∀ a ∈ rowsOf n ms, a.name = n := by
    intro a ha
    simp [rowsOf] at ha
    obtain ⟨m, _, rfl⟩ := ha
    rfl
  constructor
  · rw [update_metric, List.filter_append]
    have h1 : (sqlDeleteName tbl n).filter (fun r => r.name == n) = [] := by
      rw [List.filter_eq_nil_iff]
      intro a ha
      simp [sqlDeleteName] at ha
      simp [ha.2]
    have h2 : (rowsOf n ms).filter (fun r => r.name == n) = rowsOf n ms := by
      rw [List.filter_eq_self]
      intro a ha
      simp [hrows a ha]
    rw [h1, h2, List.nil_append]
  · rw [update_metric, List.filter_append]
    have h1 : (sqlDeleteName tbl n).filter (fun r => !(r.name == n)) =
        tbl.filter (fun r => !(r.name == n)) := by
      simp [sqlDeleteName, List.filter_filter]
    have h2 : (rowsOf n ms).filter (fun r => !(r.name == n)) = [] := by
      rw [List.filter_eq_nil_iff]
      intro a ha
      simp [hrows a ha]
    rw [h1, h2, List.append_nil]

/-- The recorded entry keys of a successful conversion run are exactly
the pre-order identifiers of the converted forest, appended to the
incoming key set. -/
theorem add_children_keys (nodes : List Node) (seen : List String) (pc : Option Int)
    (pids : List String) (tjs : Int) :
    ∀ cs es s1, add_children nodes seen pc pids tjs = .ok (cs, es, s1) →
      es.map Prod.fst = preorderIds nodes ∧ s1 = seen ++ preorderIds nodes := by
  induction nodes, seen, pc, pids, tjs using add_children.induct with
  | case1 seen pc pids tjs =>
    intro cs es s1 h
    simp [add_children] at h
    simp [preorderIds, h]
  | case2 seen pc pids tjs n rest e hconv =>
    intro cs es s1 h
    simp [add_children, hconv] at h
  | case3 seen pc pids tjs n rest item0 hconv hmem =>
    intro cs es s1 h
    simp [add_children, hconv, hmem] at h
  | case4 seen pc pids tjs n rest item0 hconv hmem e herr ih =>
    intro cs es s1 h
    simp [add_children, hconv, hmem, herr] at h
  | case5 seen pc pids tjs n rest item0 hconv hmem ci ce s2 hok e herr ih1 ih2 =>
    intro cs es s1 h
    simp [add_children, hconv, hmem, hok, herr] at h
  | case6 seen pc pids tjs n rest item0 hconv hmem ci ce s2 hok si se s3 hok2 ih1 ih2 =>
    intro cs es s1 h
    simp [add_children, hconv, hmem, hok, hok2] at h
    obtain ⟨k1, k2⟩ := ih1 ci ce s2 hok
    obtain ⟨k3, k4⟩ := ih2 si se s3 hok2
    constructor
    · rw [← h.2.1]
      simp [preorderIds, k1, k3]
    · rw [← h.2.2]
      simp [preorderIds, k2, k4]

/-- The conversion of a sibling run succeeds exactly when every node's
timestamps convert, the pre-order identifiers are pairwise distinct, and
none of them collides with an already-inserted key. -/
theorem add_children_ok_iff (nodes : List Node) (seen : List String) (pc : Option Int)
    (pids : List String) (tjs : Int) :
    (∃ r, add_children nodes seen pc pids tjs = .ok r) ↔
      (allTimesOk tjs nodes = true ∧ (preorderIds nodes).Nodup ∧
       ∀ i ∈ preorderIds nodes, i ∉ seen) := by
  induction nodes, seen, pc, pids, tjs using add_children.induct with
  | case1 seen pc pids tjs =>
    simp [add_children, preorderIds, allTimesOk]
  | case2 seen pc pids tjs n rest e hconv =>
    have htk : timesOk tjs n = false := by
      cases htk : timesOk tjs n
      · rfl
      · rw [convert_node_of_timesOk n pc pids tjs [] htk] at hconv
        simp at hconv
    simp [add_children, hconv, preorderIds, allTimesOk, htk]
  | case3 seen pc pids tjs n rest item0 hconv hmem =>
    simp [add_children, hconv, hmem, preorderIds, allTimesOk]
  | case4 seen pc pids tjs n rest item0 hconv hmem e herr ih =>
    rw [herr] at ih
    simp only [preorderIds, allTimesOk]
    constructor
    · intro hex
      obtain ⟨r, hr⟩ := hex
      simp [add_children, hconv, hmem, herr] at hr
    · intro hrhs
      obtain ⟨hat, hnd, hall⟩ := hrhs
      exfalso
      simp only [Bool.and_eq_true] at hat
      have hnd2 := List.nodup_cons.mp hnd
      have hchild := ih.mpr ⟨hat.1.2, (List.nodup_append.mp hnd2.2).1, ?_⟩
      · obtain ⟨r2, hr2⟩ := hchild
        simp at hr2
      · intro i hi hmem2
        rcases List.mem_append.mp hmem2 with his | hid
        · exact hall i (by simp [hi]) his
        · exact hnd2.1 ((List.mem_singleton.mp hid) ▸ (List.mem_append.mpr (Or.inl hi)))
  | case5 seen pc pids tjs n rest item0 hconv hmem ci ce s2 hok e herr ih1 ih2 =>
    obtain ⟨k1, k2⟩ := add_children_keys n.ch (seen ++ [n.id]) item0.completed_at
      (pids ++ [n.id]) tjs ci ce s2 hok
    rw [herr] at ih2
    simp only [preorderIds, allTimesOk]
    constructor
    · intro hex
      obtain ⟨r, hr⟩ := hex
      simp [add_children, hconv, hmem, hok, herr] at hr
    · intro hrhs
      obtain ⟨hat, hnd, hall⟩ := hrhs
      exfalso
      simp only [Bool.and_eq_true] at hat
      have hnd2 := List.nodup_cons.mp hnd
      have hsib := ih2.mpr ⟨hat.2, (List.nodup_append.mp hnd2.2).2.1, ?_⟩
      · obtain ⟨r2, hr2⟩ := hsib
        simp at hr2
      · intro i hi
        rw [k2]
        intro hmem2
        rcases List.mem_append.mp hmem2 with hm1 | hm2
        · rcases List.mem_append.mp hm1 with his | hid
          · exact hall i (by simp [hi]) his
          · exact hnd2.1 ((List.mem_singleton.mp hid) ▸ (List.mem_append.mpr (Or.inr hi)))
        · exact absurd hm2 (List.disjoint_right.mp (List.nodup_append.mp hnd2.2).2.2 hi)
  | case6 seen pc pids tjs n rest item0 hconv hmem ci ce s2 hok si se s3 hok2 ih1 ih2 =>
    obtain ⟨k1, k2⟩ := add_children_keys n.ch (seen ++ [n.id]) item0.completed_at
      (pids ++ [n.id]) tjs ci ce s2 hok
    have htk : timesOk tjs n = true := by
      cases htk : timesOk tjs n
      · rw [convert_node_of_not_timesOk n pc pids tjs [] htk] at hconv
        simp at hconv
      · rfl
    rw [hok] at ih1
    rw [hok2] at ih2
    simp at ih1 ih2
    simp [add_children, hconv, hmem, hok, hok2, preorderIds, allTimesOk, htk]
    refine ⟨⟨ih1.1, ih2.1⟩, ⟨⟨?_, ?_⟩, ?_⟩, ?_⟩
    · intro h
      exact (ih1.2.2 n.id h).2 rfl
    · intro h
      exact (ih2.2.2 n.id h) (by simp [k2])
    · rw [List.nodup_append]
      refine ⟨ih1.2.1, ih2.2.1, ?_⟩
      intro x hx hx2
      exact (ih2.2.2 x hx2) (by simp [k2, hx])
    · intro a ha
      rcases ha with ha | ha
      · exact (ih1.2.2 a ha).1
      · intro haseen
        exact (ih2.2.2 a ha) (by simp [k2, haseen])

/-- A node with unique identifiers but an out-of-range creation offset,
for the C6 counterexample. -/
def exBadTimeNode : Node := Node.mk "a" "" none 1000000000000000000 0 none []

/-- The snapshot of the C6 counterexample: one node, unique identifier,
creation offset far outside the convertible range. -/
def exBadTimeData : WorkflowyData := ⟨0, [exBadTimeNode]⟩

/-- C6 (counterexample): a raw tree with pairwise distinct node
identifiers whose flatten nevertheless aborts with an error: the
creation offset 10^18 is out of range for the timestamp conversion,
which raises inside the node conversion, so unique identifiers alone do
not guarantee that a mapping is returned. -/
theorem claim6_counterexample :
    (preorderIds exBadTimeData.rootProjectChildren).Nodup ∧
    flatten_tree exBadTimeData = .error () := by
  constructor
  · simp [preorderIds, exBadTimeData, exBadTimeNode, Node.ch, Node.id]
  · have hconv : convert_node exBadTimeNode none [] 0 [] = .error () :=
      convert_node_of_not_timesOk _ _ _ _ _ (by decide)
    simp [flatten_tree, exBadTimeData, add_children, hconv]

/-- C6 (amended): for every snapshot whose raw tree has pairwise
distinct identifiers and whose epoch-shifted timestamps all convert, the
flatten succeeds and its mapping has exactly one entry per node (the
entry keys are exactly the pre-order identifier sequence of the tree);
for every snapshot containing a duplicate identifier the whole flatten
aborts with an error, exposing no partial mapping — an out-of-range
timestamp likewise aborts the whole flatten with no partial mapping. -/
theorem claim6_amended :
    ∀ data : WorkflowyData,
      (allTimesOk data.dateJoinedTimestampInSeconds data.rootProjectChildren = true →
        (preorderIds data.rootProjectChildren).Nodup →
        ∃ es, flatten_tree data = .ok es ∧
          es.map Prod.fst = preorderIds data.rootProjectChildren) ∧
      (¬ (preorderIds data.rootProjectChildren).Nodup → flatten_tree data = .error ()) := by
  intro data
  constructor
  · intro hat hnd
    obtain ⟨⟨cs, es, s1⟩, h⟩ := (add_children_ok_iff data.rootProjectChildren [] none []
      data.dateJoinedTimestampInSeconds).mpr ⟨hat, hnd, by simp⟩
    refine ⟨es, ?_, (add_children_keys _ _ _ _ _ cs es s1 h).1⟩
    simp [flatten_tree, h]
  · intro hnd
    cases h : add_children data.rootProjectChildren [] none [] data.dateJoinedTimestampInSeconds with
    | error e =>
      cases e
      simp [flatten_tree, h]
    | ok r =>
      exact absurd ((add_children_ok_iff _ _ _ _ _).mp ⟨r, h⟩).2.1 hnd

/-- A two-node snapshot with distinct identifiers and small offsets, for
the C6 witness. -/
def exFlattenData : WorkflowyData :=
  ⟨100, [Node.mk "a" "" none 0 0 none [Node.mk "b" "" none 0 0 none []]]⟩

/-- A snapshot with a duplicated identifier, for the C6 witness. -/
def exDupData : WorkflowyData :=
  ⟨100, [Node.mk "a" "" none 0 0 none [Node.mk "a" "" none 0 0 none []]]⟩

/-- Witness for C6 at concrete snapshots: the duplicate-free tree with
convertible timestamps flattens to one entry per node, and the tree with
a repeated identifier aborts with an error. -/
theorem claim6_witness :
    (∃ es, flatten_tree exFlattenData = .ok es ∧
      es.map Prod.fst = preorderIds exFlattenData.rootProjectChildren) ∧
    flatten_tree exDupData = .error () := by
  constructor
  · exact (claim6_amended exFlattenData).1
      (by simp +decide [allTimesOk, timesOk, tsOk, exFlattenData,
        Node.ch, Node.ct, Node.lm, Node.cp])
      (by simp [preorderIds, exFlattenData, Node.ch, Node.id])
  · exact (claim6_amended exDupData).2 (by
      simp [preorderIds, exDupData, Node.ch, Node.id])


/-- Fold the completion resolution of `convert_node` along a chain of
nodes, root first: each step replaces the inherited value by the node's
own epoch-shifted offset when it has one. -/
def resolveChain (pc : Option Int) (tjs : Int) : List Node → Option Int
  | [] => pc
  | n :: chain => resolveChain (resolveRaw n pc tjs) tjs chain

/-- The folded resolution equals the epoch-shifted last own offset found
on the chain, with the initial value as fallback. -/
theorem resolveChain_eq : ∀ (chain : List Node) (pc : Option Int) (tjs : Int),
    resolveChain pc tjs chain =
      (match (chain.filterMap Node.cp).getLast? with
       | some c => some (tjs + c)
       | none => pc) := by
  intro chain
  induction chain with
  | nil => intro pc tjs; rfl
  | cons n rest ih =>
    intro pc tjs
    rw [resolveChain, ih]
    cases hcp : n.cp with
    | none => simp [List.filterMap_cons, hcp, resolveRaw]
    | some c =>
      simp only [List.filterMap_cons, hcp, resolveRaw]
      cases hfm : rest.filterMap Node.cp with
      | nil => simp
      | cons b l =>
        cases h2 : (b :: l).getLast? with
        | none => simp at h2
        | some x => simp [h2]

/-- Every converted item's completion instant is the chain resolution of
the raw nodes leading to it: the item reached by a path in the converted
forest exists exactly where the raw node does, is recorded in the entry
list, and carries the resolved completion instant. -/
theorem add_children_completed (nodes : List Node) (seen : List String) (pc : Option Int)
    (pids : List String) (tjs : Int) :
    ∀ cs es s1, add_children nodes seen pc pids tjs = .ok (cs, es, s1) →
    ∀ path n chain, getNode nodes path = some n → pathChain nodes path = some chain →
    ∃ it, getItem cs path = some it ∧ (n.id, it) ∈ es ∧
      it.completed_at = resolveChain pc tjs chain := by
  induction nodes, seen, pc, pids, tjs using add_children.induct with
  | case1 seen pc pids tjs =>
    intro cs es s1 h path n chain hget hchain
    cases path with
    | nil => simp [getNode] at hget
    | cons i rest => simp [getNode] at hget
  | case2 seen pc pids tjs n rest e hconv =>
    intro cs es s1 h
    simp [add_children, hconv] at h
  | case3 seen pc pids tjs n rest item0 hconv hmem =>
    intro cs es s1 h
    simp [add_children, hconv, hmem] at h
  | case4 seen pc pids tjs n rest item0 hconv hmem e herr ih =>
    intro cs es s1 h
    simp [add_children, hconv, hmem, herr] at h
  | case5 seen pc pids tjs n rest item0 hconv hmem ci ce s2 hok e herr ih1 ih2 =>
    intro cs es s1 h
    simp [add_children, hconv, hmem, hok, herr] at h
  | case6 seen pc pids tjs n rest item0 hconv hmem ci ce s2 hok si se s3 hok2 ih1 ih2 =>
    intro cs es s1 h
    have htk : timesOk tjs n = true := by
      cases htk : timesOk tjs n
      · rw [convert_node_of_not_timesOk n pc pids tjs [] htk] at hconv
        simp at hconv
      · rfl
    have hitem0 : item0 = .mk n.id n.nm (n.no.getD "") (find_tags n.nm) pids
        (WItemList.ofList []) (tjs + n.ct) (tjs + n.lm) (resolveRaw n pc tjs) := by
      rw [convert_node_of_timesOk n pc pids tjs [] htk] at hconv
      injection hconv with hh
      exact hh.symm
    have hpc0 : item0.completed_at = resolveRaw n pc tjs := by
      rw [hitem0]
      rfl
    simp [add_children, hconv, hmem, hok, hok2] at h
    obtain ⟨hcs, hes, hs1⟩ := h
    intro path n0 chain hget hchain
    cases path with
    | nil => simp [getNode] at hget
    | cons i rest2 =>
      cases i with
      | zero =>
        simp [getNode] at hget
        simp [pathChain] at hchain
        by_cases hr : rest2 = []
        · subst hr
          simp at hget hchain
          subst hget
          subst hchain
          refine ⟨item0.withChildren ci, ?_, ?_, ?_⟩
          · rw [← hcs]
            simp [getItem]
          · rw [← hes]
            simp
          · rw [hitem0]
            simp [WorkflowyItem.withChildren, WorkflowyItem.completed_at, resolveChain]
        · simp [hr] at hget hchain
          obtain ⟨chain2, hpc2, hchain2⟩ := hchain
          obtain ⟨it, hgi, hmemc, hcomp⟩ :=
            ih1 ci ce s2 hok rest2 n0 chain2 hget hpc2
          refine ⟨it, ?_, ?_, ?_⟩
          · rw [← hcs]
            simp [getItem, hr]
            rw [WorkflowyItem.children]
            rw [hitem0]
            simp [WorkflowyItem.withChildren, WorkflowyItem.childSeq, WItemList.toList_ofList]
            exact hgi
          · rw [← hes]
            simp
            right
            left
            exact hmemc
          · rw [hcomp, hpc0, ← hchain2]
            rfl
      | succ j =>
        simp [getNode] at hget
        simp [pathChain] at hchain
        obtain ⟨it, hgi, hmems, hcomp⟩ :=
          ih2 si se s3 hok2 (j :: rest2) n0 chain (by simpa [getNode] using hget)
            (by simpa [pathChain] using hchain)
        refine ⟨it, ?_, ?_, hcomp⟩
        · rw [← hcs]
          simpa [getItem] using hgi
        · rw [← hes]
          simp
          right
          right
          exact hmems


/-- Resolution along a chain ending in a node with its own completion
offset: the own offset wins. -/
theorem resolveChain_concat_own (l : List Node) (n : Node) (pc : Option Int) (tjs c : Int)
    (h : n.cp = some c) : resolveChain pc tjs (l ++ [n]) = some (tjs + c) := by
  rw [resolveChain_eq]
  simp [List.filterMap_append, List.filterMap_cons, h, List.getLast?_concat]

/-- Resolution along a chain ending in a node without its own completion
offset: the nearest completed ancestor wins, with the initial value as
fallback. -/
theorem resolveChain_concat_inherit (l : List Node) (n : Node) (pc : Option Int) (tjs : Int)
    (h : n.cp = none) :
    resolveChain pc tjs (l ++ [n]) =
      (match (l.filterMap Node.cp).getLast? with
       | some c => some (tjs + c)
       | none => pc) := by
  rw [resolveChain_eq]
  simp [List.filterMap_append, List.filterMap_cons, h]

/-- C2: for every node of a successfully flattened snapshot, the item
built for it has completion instant equal to epoch plus the node's own
completion offset when the node carries one (overriding anything
inherited), and otherwise equal to the epoch-shifted offset of the
nearest ancestor that carries one — absent when no ancestor does.  The
node is addressed by its path; its ancestors are the chain of raw nodes
leading to it, root first. -/
theorem claim2_completion :
    ∀ (data : WorkflowyData) cs es s1,
      add_children data.rootProjectChildren [] none [] data.dateJoinedTimestampInSeconds =
        .ok (cs, es, s1) →
      ∀ path n chain0,
        getNode data.rootProjectChildren path = some n →
        pathChain data.rootProjectChildren path = some (chain0 ++ [n]) →
        ∃ it, getItem cs path = some it ∧ (n.id, it) ∈ es ∧
          (∀ c, n.cp = some c →
            it.completed_at = some (data.dateJoinedTimestampInSeconds + c)) ∧
          (n.cp = none →
            it.completed_at = ((chain0.filterMap Node.cp).getLast?).map
              (fun c => data.dateJoinedTimestampInSeconds + c)) := by
  intro data cs es s1 h path n chain0 hget hchain
  obtain ⟨it, hgi, hmem, hcomp⟩ :=
    add_children_completed _ _ _ _ _ cs es s1 h path n (chain0 ++ [n]) hget hchain
  refine ⟨it, hgi, hmem, ?_, ?_⟩
  · intro c hc
    rw [hcomp, resolveChain_concat_own _ _ _ _ _ hc]
  · intro hc
    rw [hcomp, resolveChain_concat_inherit _ _ _ _ hc]
    cases (chain0.filterMap Node.cp).getLast? <;> simp

/-- A child node with no completion offset of its own, for the C2
witness. -/
def exC2Child : Node := Node.mk "c" "" none 0 0 none []

/-- A completed root node owning the child, for the C2 witness. -/
def exC2Root : Node := Node.mk "r" "" none 0 0 (some 7) [exC2Child]

/-- The snapshot of the C2 witness: epoch 100, one completed root with
one uncompleted child. -/
def exC2Data : WorkflowyData := ⟨100, [exC2Root]⟩

/-- Witness for C2 at a concrete snapshot: the uncompleted child inherits
the root's resolved completion instant 100 + 7. -/
theorem claim2_witness :
    ∃ cs es s1 it,
      add_children exC2Data.rootProjectChildren [] none [] exC2Data.dateJoinedTimestampInSeconds =
        .ok (cs, es, s1) ∧
      getItem cs [0, 0] = some it ∧ ("c", it) ∈ es ∧ it.completed_at = some 107 := by
  obtain ⟨⟨cs, es, s1⟩, h⟩ :=
    (add_children_ok_iff exC2Data.rootProjectChildren [] none []
      exC2Data.dateJoinedTimestampInSeconds).mpr
      ⟨by simp +decide [allTimesOk, timesOk, tsOk, exC2Data, exC2Root, exC2Child,
          Node.ch, Node.ct, Node.lm, Node.cp],
        by simp [preorderIds, exC2Data, exC2Root, exC2Child, Node.ch, Node.id], by simp⟩
  obtain ⟨it, hgi, hmem, h1, h2⟩ :=
    claim2_completion exC2Data cs es s1 h [0, 0] exC2Child [exC2Root] (by rfl) (by rfl)
  refine ⟨cs, es, s1, it, h, hgi, hmem, ?_⟩
  have hcc := h2 (by rfl)
  rw [hcc]
  rfl
